import Mathlib

/-!
Verification of the DingtalkFriday backend against its specification.

The Python sources under `src/backend/app` are shallowly embedded as Lean
definitions: pure numeric code becomes functions on `ℤ`/`ℚ`, database tables
become lists of row structures, vendor endpoints become explicit function
parameters of an environment record, and the `try/except` control flow of the
sync pipeline becomes `Except` results.  Timestamp columns (`updated_at`,
`created_at`, `started_at`, `finished_at`) are omitted from the row models:
they carry wall-clock times and no claim depends on them.
-/

namespace DF

/-!
Duration normalizer, embedding `_convert_duration` from
`src/backend/app/services/leave.py` (lines 84-119).  Python floats are
modelled as rationals; every arithmetic step of the source is a division or
multiplication that is exact at the inputs the claims quantify over.
-/

/-- Embeds `_convert_duration(duration_percent, duration_unit, target_unit,
hours_in_per_day)`: raw value = percent / 100; total hours = raw for
`percent_hour`, raw * (hours_in_per_day / 100) otherwise; target `hour`
returns total hours, any other target divides by the fixed standard of 8. -/
def convert_duration (duration_percent : ℤ) (duration_unit : String)
    (target_unit : String) (hours_in_per_day : ℤ) : ℚ :=
  let raw : ℚ := (duration_percent : ℚ) / 100
  let hpd : ℚ := (hours_in_per_day : ℚ) / 100
  let total_hours : ℚ := if duration_unit = "percent_hour" then raw else raw * hpd
  if target_unit = "hour" then total_hours else total_hours / 8

/-!
Proration engine.  `src/backend/app/services/analytics.py` imports
`_prorate_duration`, `_count_workdays` and `_is_calendar_day_leave` from
`app.services.leave`, but the provided copy of
`src/backend/app/services/leave.py` does not contain those definitions, so
they are modelled from the spec below.  Dates are modelled as integer day
numbers; the workday classifier (regional holiday calendar with a plain
weekend fallback) is abstracted as a boolean predicate on days.
-/

/-- Modelled from the spec: `_count_workdays`, missing from the provided
`src/backend/app/services/leave.py`.  Counts the days `d` in the inclusive
range `[a, b]` that the classifier `w` marks as workdays. -/
def count_workdays (w : ℤ → Bool) (a b : ℤ) : ℕ :=
  ((List.range (b + 1 - a).toNat).map (fun i => a + (i : ℤ))).countP w

/-- Modelled from the spec: `_prorate_duration`, missing from the provided
`src/backend/app/services/leave.py` (only its importer
`src/backend/app/services/analytics.py` is present).  Given a record whose
span is `[s, e]` and whose converted day/hour value is `value`, and a target
sub-period `[ps, pe]`, scale `value` by the ratio of workdays in the overlap
of the two ranges to workdays in the full span; a span with zero workdays
contributes zero.  A calendar-day-based leave type counts every calendar day
instead of workdays, in both counts. -/
def prorate_duration (value : ℚ) (s e ps pe : ℤ) (calendar_day_leave : Bool)
    (w : ℤ → Bool) : ℚ :=
  let wd : ℤ → Bool := if calendar_day_leave then (fun _ => true) else w
  let total := count_workdays wd s e
  let overlap := count_workdays wd (max s ps) (min e pe)
  if total = 0 then 0 else value * (overlap : ℚ) / (total : ℚ)

/-- C1: `convert_duration` computes via a total-hours pivot: total hours is
p/100 for `percent_hour` and (p/100)*(h/100) for `percent_day`; target `hour`
returns total hours, target `day` divides by the fixed 8 (not the type's own
hours-per-day); and the three concrete examples 1.5, 1.0 and 4.8 hold. -/
theorem C1_convert_duration_total_hours_pivot :
    (∀ p h : ℤ,
      convert_duration p "percent_hour" "hour" h = (p : ℚ) / 100 ∧
      convert_duration p "percent_day" "hour" h = ((p : ℚ) / 100) * ((h : ℚ) / 100) ∧
      convert_duration p "percent_hour" "day" h = ((p : ℚ) / 100) / 8 ∧
      convert_duration p "percent_day" "day" h = (((p : ℚ) / 100) * ((h : ℚ) / 100)) / 8) ∧
    convert_duration 100 "percent_day" "day" 1200 = 3 / 2 ∧
    convert_duration 100 "percent_day" "day" 800 = 1 ∧
    convert_duration 480 "percent_hour" "hour" 800 = 24 / 5 := by
  refine ⟨fun p h => ⟨?_, ?_, ?_, ?_⟩, ?_, ?_, ?_⟩ <;>
    simp [convert_duration] <;> norm_num

/-- C2: proration scales the record's value by the ratio of workdays in the
overlap to workdays in the full span; a record spanning exactly one workday
prorated onto a sub-period containing that day returns its full value;
prorated onto a disjoint sub-period it returns 0; a span with zero workdays
contributes zero to every sub-period. -/
theorem C2_prorate_workday_share :
    ∀ (w : ℤ → Bool) (v : ℚ) (s e ps pe : ℤ),
      (count_workdays w s e ≠ 0 →
        prorate_duration v s e ps pe false w =
          v * (count_workdays w (max s ps) (min e pe) : ℚ) /
            (count_workdays w s e : ℚ)) ∧
      (count_workdays w s e = 0 →
        prorate_duration v s e ps pe false w = 0) ∧
      (∀ d : ℤ, w d = true → ps ≤ d → d ≤ pe →
        prorate_duration v d d ps pe false w = v) ∧
      (min e pe < max s ps → prorate_duration v s e ps pe false w = 0) := by
  intro w v s e ps pe
  have hempty : ∀ a b : ℤ, b < a → count_workdays w a b = 0 := by
    intro a b hab
    have : (b + 1 - a).toNat = 0 := by omega
    simp [count_workdays, this]
  refine ⟨?_, ?_, ?_, ?_⟩
  · intro ht
    simp [prorate_duration, ht]
  · intro ht
    simp [prorate_duration, ht]
  · intro d hd hps hpe
    have hmax : max d ps = d := by omega
    have hmin : min d pe = d := by omega
    have hone : count_workdays w d d = 1 := by
      have h1 : (d + 1 - d).toNat = 1 := by omega
      have h2 : List.range 1 = [0] := rfl
      simp [count_workdays, h1, h2, List.countP_cons, hd]
    simp [prorate_duration, hmax, hmin, hone]
  · intro hdis
    by_cases ht : count_workdays w s e = 0
    · simp [prorate_duration, ht]
    · have hov : count_workdays w (max s ps) (min e pe) = 0 :=
        hempty _ _ hdis
      simp [prorate_duration, ht, hov]

/-- Witness for C2 at concrete inputs: an always-workday calendar, a value of
2, span and sub-periods chosen to hit each hypothesis. -/
theorem C2_prorate_workday_share_witness :
    prorate_duration 2 0 1 0 0 false (fun _ => true) =
      2 * ((count_workdays (fun _ => true) (max 0 0) (min 1 0) : ℕ) : ℚ) /
        ((count_workdays (fun _ => true) 0 1 : ℕ) : ℚ) ∧
    prorate_duration 2 3 3 0 10 false (fun _ => true) = 2 ∧
    prorate_duration 2 0 1 5 9 false (fun _ => true) = 0 := by
  refine ⟨?_, ?_, ?_⟩
  · exact (C2_prorate_workday_share (fun _ => true) 2 0 1 0 0).1 (by decide)
  · exact (C2_prorate_workday_share (fun _ => true) 2 3 3 0 10).2.2.1 3 rfl
      (by decide) (by decide)
  · exact (C2_prorate_workday_share (fun _ => true) 2 0 1 5 9).2.2.2 (by decide)

/-!
Attendance fetchers, embedding `src/backend/app/dingtalk/attendance.py`.
The offset-pagination loops are embedded by modelling the vendor response as
the finite sequence of result pages the endpoint serves during one call; the
loop walks that sequence in order (the source repeats with `offset += size`
until `has_more` is false).
-/

/-- One raw entry of a vacation-record-list response page, with the fields
the source reads via `item.get(...)`; fields that may be absent or null are
`Option`s.  `userid` is modelled as always present (NOT NULL column). -/
structure VacEntry where
  userid : String
  leave_code : Option String
  start_time : Option ℤ
  end_time : Option ℤ
  record_num_per_day : Option ℤ
  record_num_per_hour : Option ℤ
  leave_view_unit : Option String
  leave_status : Option String
  cal_type : Option String
  deriving DecidableEq, Repr

/-- The normalized record dict `get_vacation_record_list` appends for a kept
entry (the projection drops `cal_type`). -/
structure VacRec where
  userid : String
  leave_code : Option String
  start_time : Option ℤ
  end_time : Option ℤ
  record_num_per_day : Option ℤ
  record_num_per_hour : Option ℤ
  leave_view_unit : Option String
  leave_status : Option String
  deriving DecidableEq, Repr

/-- The projection applied to a kept entry. -/
def vacEntryToRec (e : VacEntry) : VacRec :=
  ⟨e.userid, e.leave_code, e.start_time, e.end_time, e.record_num_per_day,
    e.record_num_per_hour, e.leave_view_unit, e.leave_status⟩

/-- The two `continue` guards of the page loop: an entry survives iff its
vendor status is the string "success" and its `cal_type` is null. -/
def keepVacEntry (e : VacEntry) : Bool :=
  decide (e.leave_status = some "success" ∧ e.cal_type = none)

/-- Embeds the paginated collection loop of `get_vacation_record_list`
(lines 107-142 of `src/backend/app/dingtalk/attendance.py`): each page's
entries are filtered by `keepVacEntry` and the kept ones appended in order. -/
def get_vacation_record_list : List (List VacEntry) → List VacRec
  | [] => []
  | page :: rest =>
      (page.filter keepVacEntry).map vacEntryToRec ++ get_vacation_record_list rest

/-- One entry of a `getleavestatus` response page. -/
structure LeaveStatusItem where
  userid : Option String
  start_time : Option ℤ
  end_time : Option ℤ
  duration_percent : Option ℤ
  duration_unit : Option String
  deriving DecidableEq, Repr

/-- The pagination loop of `get_leave_status`: pages are appended in order. -/
def collectLeaveStatusPages : List (List LeaveStatusItem) → List LeaveStatusItem
  | [] => []
  | p :: rest => p ++ collectLeaveStatusPages rest

/-- Embeds `get_leave_status` (lines 13-80 of
`src/backend/app/dingtalk/attendance.py`).  The source joins
`userid_list[:100]` into a comma-separated query string; the vendor is
modelled as a function from the queried id list (the parsed form of that
string) to its sequence of result pages. -/
def get_leave_status (vendor : List String → List (List LeaveStatusItem))
    (userid_list : List String) : List LeaveStatusItem :=
  collectLeaveStatusPages (vendor (userid_list.take 100))

/-- C5: every vacation-record-list entry whose `leave_status` is not
"success" or whose `cal_type` is non-null is excluded from the returned
record set, and every other entry is kept (in order, projected). -/
theorem C5_vacation_record_filter :
    ∀ pages : List (List VacEntry),
      get_vacation_record_list pages =
        ((pages.flatten).filter
          (fun e => decide (e.leave_status = some "success" ∧ e.cal_type = none))).map
          vacEntryToRec := by
  intro pages
  induction pages with
  | nil => rfl
  | cons p rest ih =>
      rw [get_vacation_record_list, ih, List.flatten_cons, List.filter_append,
        List.map_append]
      rfl

/-- C9: `get_leave_status` queries only the first 100 user ids: the result
depends only on `userid_list.take 100`; records of users beyond the first
100 are silently omitted (whenever the vendor only reports users it was
asked about); and the call returns a plain record list, raising no error. -/
theorem C9_leave_status_truncates_to_100 :
    ∀ (vendor : List String → List (List LeaveStatusItem)) (l : List String),
      (∀ l2 : List String, l.take 100 = l2.take 100 →
        get_leave_status vendor l = get_leave_status vendor l2) ∧
      get_leave_status vendor l =
        collectLeaveStatusPages (vendor (l.take 100)) ∧
      ((∀ ids p it, p ∈ vendor ids → it ∈ p →
          ∀ u, it.userid = some u → u ∈ ids) →
        ∀ u, u ∉ l.take 100 →
          ∀ it, it ∈ get_leave_status vendor l → it.userid ≠ some u) := by
  intro vendor l
  have hmem : ∀ pages it, it ∈ collectLeaveStatusPages pages →
      ∃ p ∈ pages, it ∈ p := by
    intro pages
    induction pages with
    | nil => intro it hit; cases hit
    | cons p rest ih =>
        intro it hit
        rw [collectLeaveStatusPages, List.mem_append] at hit
        rcases hit with h | h
        · exact ⟨p, List.mem_cons_self p rest, h⟩
        · obtain ⟨q, hq, hq2⟩ := ih it h
          exact ⟨q, List.mem_cons_of_mem p hq, hq2⟩
  refine ⟨?_, rfl, ?_⟩
  · intro l2 h
    simp [get_leave_status, h]
  · intro hvendor u hu it hit heq
    obtain ⟨p, hp, hitp⟩ := hmem _ it hit
    exact hu (hvendor _ p it hp hitp u heq)

/-- Witness for C9: a 101-element id list; the vendor returns one page with
one item per queried id, so the behaviour on the over-long list matches the
truncated one and the 101st user's records never appear. -/
theorem C9_leave_status_truncates_to_100_witness :
    get_leave_status
        (fun ids => [ids.map (fun i => ⟨some i, none, none, none, none⟩)])
        (List.replicate 100 "a" ++ ["b"]) =
      get_leave_status
        (fun ids => [ids.map (fun i => ⟨some i, none, none, none, none⟩)])
        (List.replicate 100 "a") ∧
    ((⟨some "b", none, none, none, none⟩ : LeaveStatusItem) ∈
        get_leave_status
          (fun ids => [ids.map (fun i => ⟨some i, none, none, none, none⟩)])
          (List.replicate 100 "a" ++ ["b"]) → False) := by
  constructor
  · exact (C9_leave_status_truncates_to_100
      (fun ids => [ids.map (fun i => ⟨some i, none, none, none, none⟩)])
      (List.replicate 100 "a" ++ ["b"])).1 (List.replicate 100 "a") (by decide)
  · intro hmem
    exact (C9_leave_status_truncates_to_100
      (fun ids => [ids.map (fun i => ⟨some i, none, none, none, none⟩)])
      (List.replicate 100 "a" ++ ["b"])).2.2
      (by
        intro ids p it hp hit u hu
        rw [List.mem_singleton] at hp
        subst hp
        obtain ⟨i, hi, hieq⟩ := List.mem_map.mp hit
        rw [← hieq] at hu
        cases hu
        exact hi)
      "b" (by decide) _ hmem rfl

/-!
Sync orchestrator, embedding `src/backend/app/services/sync.py`.  Database
tables are lists of rows; SQLite `INSERT ... ON CONFLICT DO UPDATE` becomes
an explicit replace-or-append on the natural key.  Vendor endpoints are
fields of an environment record returning `Except` (a raised typed error is
`.error`).  The SyncLog life cycle (`running` → terminal) is modelled by the
finished row each stage appends; `started_at`/`finished_at` are omitted.
Remote calls are pure functions of their arguments, so collecting a stage's
upsert sequence before folding it into the table is equivalent to the
source's interleaved fetch-and-upsert loop.
-/

/-- A fetched sub-department dict `{dept_id, name, parent_id}`. -/
structure DeptInfo where
  dept_id : ℤ
  name : String
  parent_id : Option ℤ
  deriving DecidableEq, Repr

/-- A `department` table row (timestamps omitted). -/
structure DeptRow where
  dept_id : ℤ
  name : String
  parent_id : Option ℤ
  deriving DecidableEq, Repr

/-- A fetched simple user dict `{userid, name}`. -/
structure UserInfo where
  userid : String
  name : String
  deriving DecidableEq, Repr

/-- An `employee` table row (avatar and mobile are not touched by sync;
timestamps omitted). -/
structure EmpRow where
  userid : String
  name : String
  dept_id : ℤ
  dept_name : Option String
  deriving DecidableEq, Repr

/-- A vacation-type dict as returned by `get_vacation_type_list` (that
fetcher fills every field with a default, so none is optional). -/
structure LeaveTypeFetched where
  leave_code : String
  leave_name : String
  leave_view_unit : String
  hours_in_per_day : ℤ
  deriving DecidableEq, Repr

/-- A `leave_type` table row (timestamps omitted). -/
structure LeaveTypeRow where
  leave_code : String
  leave_name : String
  leave_view_unit : Option String
  hours_in_per_day : Option ℤ
  deriving DecidableEq, Repr

/-- A `leave_record` table row (surrogate id and timestamps omitted; the
natural key is `(userid, start_time, end_time)`). -/
structure LeaveRecordRow where
  userid : String
  start_time : ℤ
  end_time : ℤ
  duration_percent : ℤ
  duration_unit : String
  leave_type : String
  leave_code : Option String
  status : String
  deriving DecidableEq, Repr

/-- A finished `sync_log` row. -/
structure SyncLogRow where
  sync_type : String
  status : String
  message : String
  deriving DecidableEq, Repr

/-- The local store: the five tables of `src/backend/app/models.py`. -/
structure DB where
  departments : List DeptRow
  employees : List EmpRow
  leaveTypes : List LeaveTypeRow
  leaveRecords : List LeaveRecordRow
  logs : List SyncLogRow
  deriving DecidableEq, Repr

/-- The configuration and vendor environment a sync run reads.  `yearStart`
and `yearEnd` are the millisecond bounds the source computes from `year`
via local-time `datetime(...).timestamp()`; the clock arithmetic is
abstracted as data.  An unset (empty-string) `admin_userid` is modelled as
`none`.  `recFetch` takes the operator id, a leave code and a user-id
batch. -/
structure Env where
  root_dept_id : ℤ
  admin_userid : Option String
  leave_type_names : String
  year : ℤ
  yearStart : ℤ
  yearEnd : ℤ
  deptChildren : ℤ → Except String (List DeptInfo)
  userList : ℤ → Except String (List UserInfo)
  typesFetch : String → Except String (List LeaveTypeFetched)
  recFetch : String → String → List String → Except String (List VacRec)

/-- Upsert on the `department` primary key `dept_id`, overwriting `name`
and `parent_id` on conflict. -/
def upsertDept (tbl : List DeptRow) (d : DeptInfo) : List DeptRow :=
  if tbl.any (fun r => decide (r.dept_id = d.dept_id)) then
    tbl.map (fun r => if r.dept_id = d.dept_id then
      { r with name := d.name, parent_id := d.parent_id } else r)
  else tbl ++ [⟨d.dept_id, d.name, d.parent_id⟩]

/-- Upsert on the `employee` primary key `userid`, overwriting `name`,
`dept_id` and `dept_name` on conflict. -/
def upsertEmp (tbl : List EmpRow) (u : UserInfo) (did : ℤ)
    (dname : Option String) : List EmpRow :=
  if tbl.any (fun r => decide (r.userid = u.userid)) then
    tbl.map (fun r => if r.userid = u.userid then
      { r with name := u.name, dept_id := did, dept_name := dname } else r)
  else tbl ++ [⟨u.userid, u.name, did, dname⟩]

/-- Upsert on the `leave_type` primary key `leave_code`. -/
def upsertType (tbl : List LeaveTypeRow) (t : LeaveTypeFetched) : List LeaveTypeRow :=
  if tbl.any (fun r => decide (r.leave_code = t.leave_code)) then
    tbl.map (fun r => if r.leave_code = t.leave_code then
      { r with leave_name := t.leave_name, leave_view_unit := some t.leave_view_unit,
               hours_in_per_day := some t.hours_in_per_day } else r)
  else tbl ++ [⟨t.leave_code, t.leave_name, some t.leave_view_unit, some t.hours_in_per_day⟩]

/-- The natural key of `leave_record`. -/
def sameRecordKey (a b : LeaveRecordRow) : Bool :=
  decide (a.userid = b.userid ∧ a.start_time = b.start_time ∧ a.end_time = b.end_time)

/-- Upsert on the `(userid, start_time, end_time)` unique constraint,
overwriting `duration_percent`, `duration_unit`, `leave_type` and
`leave_code` on conflict (`status` and `created_at` are insert-only). -/
def upsertRecord (tbl : List LeaveRecordRow) (r : LeaveRecordRow) : List LeaveRecordRow :=
  if tbl.any (fun x => sameRecordKey x r) then
    tbl.map (fun x => if sameRecordKey x r then
      { x with duration_percent := r.duration_percent, duration_unit := r.duration_unit,
               leave_type := r.leave_type, leave_code := r.leave_code } else x)
  else tbl ++ [r]

/-!
Department sync (lines 59-106 of `src/backend/app/services/sync.py`): a
breadth-first traversal from the configured root with a visited set.  The
`while queue` loop may genuinely diverge if the remote keeps producing fresh
ids, so it is embedded with a fuel that bounds loop iterations: `none` means
the loop was still running when the fuel ran out.  The trace accumulates, in
order, the ids whose child list was fetched.
-/

/-- One `while queue` loop of `sync_departments`.  Pops the queue head; a
visited id is skipped, a fresh id is marked visited, its children fetched
(an error aborts the stage, returning the table as upserted so far), and
each child is upserted, counted and enqueued. -/
def bfsAux (children : ℤ → Except String (List DeptInfo)) :
    ℕ → List ℤ → Finset ℤ → List DeptRow → ℕ → List ℤ →
    Option (Except (String × List DeptRow) (List DeptRow × ℕ × Finset ℤ × List ℤ))
  | _, [], visited, tbl, count, trace => some (.ok (tbl, count, visited, trace))
  | 0, _ :: _, _, _, _, _ => none
  | fuel + 1, p :: rest, visited, tbl, count, trace =>
    if p ∈ visited then
      bfsAux children fuel rest visited tbl count trace
    else
      match children p with
      | .error e => some (.error (e, tbl))
      | .ok subs =>
          bfsAux children fuel (rest ++ subs.map (fun d => d.dept_id))
            (insert p visited) (subs.foldl upsertDept tbl)
            (count + subs.length) (trace ++ [p])

/-- Embeds `sync_departments`: run the BFS from the root over an empty
visited set, then finish the stage log. -/
def sync_departments (env : Env) (fuel : ℕ) (db : DB) :
    Option (DB × Except String String) :=
  match bfsAux env.deptChildren fuel [env.root_dept_id] ∅ db.departments 0 [] with
  | none => none
  | some (.error (e, tbl)) =>
      let msg := "Department sync failed: " ++ e
      some ({ db with departments := tbl,
                      logs := db.logs ++ [⟨"department", "failed", msg⟩] }, .error msg)
  | some (.ok (tbl, count, _, _)) =>
      let msg := "Synced " ++ toString count ++ " departments"
      some ({ db with departments := tbl,
                      logs := db.logs ++ [⟨"department", "success", msg⟩] }, .ok msg)

/-!
Employee sync (lines 113-176 of `src/backend/app/services/sync.py`).
-/

/-- The per-department loop of `sync_employees`: fetch the simple user list
(an error aborts the stage with the table as upserted so far), resolve the
department name from the local table, and upsert every user. -/
def empLoop (env : Env) (depts : List DeptRow) :
    List ℤ → List EmpRow → ℕ → List EmpRow × ℕ × Option String
  | [], tbl, count => (tbl, count, none)
  | did :: rest, tbl, count =>
    match env.userList did with
    | .error e => (tbl, count, some e)
    | .ok users =>
        let dname := (depts.find? (fun r => decide (r.dept_id = did))).map
          (fun r => r.name)
        empLoop env depts rest
          (users.foldl (fun t u => upsertEmp t u did dname) tbl)
          (count + users.length)

/-- Embeds `sync_employees` as called by `full_sync` (no caller-specified
department): iterate every locally present department id, falling back to
the configured root when the department table is empty. -/
def sync_employees (env : Env) (db : DB) : DB × Except String String :=
  let ids := db.departments.map (fun r => r.dept_id)
  let dept_ids := if ids.isEmpty then [env.root_dept_id] else ids
  match empLoop env db.departments dept_ids db.employees 0 with
  | (tbl, count, none) =>
      let msg := "Synced " ++ toString count ++ " employees across " ++
        toString dept_ids.length ++ " departments"
      ({ db with employees := tbl,
                 logs := db.logs ++ [⟨"employee", "success", msg⟩] }, .ok msg)
  | (tbl, _, some e) =>
      let msg := "Employee sync failed: " ++ e
      ({ db with employees := tbl,
                 logs := db.logs ++ [⟨"employee", "failed", msg⟩] }, .error msg)

/-!
Leave-type sync (lines 183-250 of `src/backend/app/services/sync.py`).
-/

/-- The candidate list: the configured admin id first, then up to five local
employee ids, each appended only if not already present. -/
def addCandidates (base : List String) (emps : List String) : List String :=
  emps.foldl (fun acc u => if u ∈ acc then acc else acc ++ [u]) base

/-- The sequential fallback loop: try each candidate operator id in order,
stopping at the first whose fetch succeeds. -/
def tryCandidates (f : String → Except String (List LeaveTypeFetched)) :
    List String → Option (List LeaveTypeFetched)
  | [] => none
  | c :: rest =>
    match f c with
    | .ok ts => some ts
    | .error _ => tryCandidates f rest

/-- Embeds `sync_leave_types`.  Both failure paths (no candidate at all, and
every candidate failing) mark the stage log `failed` and RETURN the message
normally; only an escape of the outer `try` (never taken by the modelled
effects) would re-raise. -/
def sync_leave_types (env : Env) (db : DB) : DB × Except String String :=
  let base := match env.admin_userid with | some a => [a] | none => []
  let candidates := addCandidates base ((db.employees.map (fun r => r.userid)).take 5)
  if candidates.isEmpty then
    let msg := "No op_userid available, skipping leave type sync"
    ({ db with logs := db.logs ++ [⟨"leave_type", "failed", msg⟩] }, .ok msg)
  else
    match tryCandidates env.typesFetch candidates with
    | none =>
        let msg := "All " ++ toString candidates.length ++
          " userid candidates failed for get_vacation_type_list"
        ({ db with logs := db.logs ++ [⟨"leave_type", "failed", msg⟩] }, .ok msg)
    | some ts =>
        let msg := "Synced " ++ toString ts.length ++ " leave types"
        ({ db with leaveTypes := ts.foldl upsertType db.leaveTypes,
                   logs := db.logs ++ [⟨"leave_type", "success", msg⟩] }, .ok msg)

/-!
Leave-record sync (lines 286-428 of `src/backend/app/services/sync.py`).
-/

/-- Python truthiness of an optional integer field: `None` and `0` are both
falsy (the source guards with `if not st or not et`). -/
def pyTruthyInt : Option ℤ → Bool
  | none => false
  | some v => decide (v ≠ 0)

/-- Python `x or "day"` on the nullable `leave_view_unit` column: `None` and
the empty string both fall back. -/
def viewUnitOrDay : Option String → String
  | none => "day"
  | some s => if s = "" then "day" else s

/-- The whitelist parse: split the configured comma-separated names, strip
each, drop empties. -/
def splitWhitelist (raw : String) : List String :=
  ((raw.splitOn ",").map String.trim).filter (fun s => decide (s ≠ ""))

/-- The leave types the stage iterates: all local rows, restricted to the
configured display whitelist when one is set. -/
def whitelistedTypes (env : Env) (db : DB) : List LeaveTypeRow :=
  let allowed := if env.leave_type_names = "" then []
    else splitWhitelist env.leave_type_names
  if allowed.isEmpty then db.leaveTypes
  else db.leaveTypes.filter (fun lt => decide (lt.leave_name ∈ allowed))

/-- The `range(0, len, 50)` batching of the employee id list, embedded with
the list length as structural fuel (each step consumes at least one id). -/
def chunksAux : ℕ → List String → List (List String)
  | 0, _ => []
  | _, [] => []
  | n + 1, x :: xs => (x :: xs).take 50 :: chunksAux n ((x :: xs).drop 50)

/-- Batches of at most 50 employee ids, in order. -/
def chunks50 (l : List String) : List (List String) := chunksAux l.length l

/-- The per-record body of the upsert loop: skip records lacking a truthy
start or end time, filter to the target year by `start_time`, then choose
`duration_percent`/`duration_unit` from `record_num_per_hour` /
`record_num_per_day`, preferring the type's declared unit, discarding
records that carry neither. -/
def processRec (yearStart yearEnd : ℤ) (view_unit leave_name leave_code : String)
    (r : VacRec) : Option LeaveRecordRow :=
  if !(pyTruthyInt r.start_time) || !(pyTruthyInt r.end_time) then none
  else
    let st := r.start_time.getD 0
    let et := r.end_time.getD 0
    if st < yearStart || yearEnd < st then none
    else if view_unit = "hour" && r.record_num_per_hour.isSome then
      some ⟨r.userid, st, et, |r.record_num_per_hour.getD 0|, "percent_hour",
        leave_name, some leave_code, "已审批"⟩
    else if r.record_num_per_day.isSome then
      some ⟨r.userid, st, et, |r.record_num_per_day.getD 0|, "percent_day",
        leave_name, some leave_code, "已审批"⟩
    else if r.record_num_per_hour.isSome then
      some ⟨r.userid, st, et, |r.record_num_per_hour.getD 0|, "percent_hour",
        leave_name, some leave_code, "已审批"⟩
    else none

/-- The sequence of upserts the stage performs: for each (whitelisted) leave
type, for each batch of at most 50 employee ids, fetch that pair's vacation
records — a fetch failure is logged and skipped, contributing nothing — and
process each returned record. -/
def stageRows (env : Env) (op : String) (types : List LeaveTypeRow)
    (userids : List String) : List LeaveRecordRow :=
  types.flatMap (fun lt =>
    (chunks50 userids).flatMap (fun batch =>
      match env.recFetch op lt.leave_code batch with
      | .error _ => []
      | .ok recs =>
          recs.filterMap (processRec env.yearStart env.yearEnd
            (viewUnitOrDay lt.leave_view_unit) lt.leave_name lt.leave_code)))

/-- Does a record's `start_time` fall within the target year? -/
def inYear (yearStart yearEnd : ℤ) (r : LeaveRecordRow) : Bool :=
  decide (yearStart ≤ r.start_time ∧ r.start_time ≤ yearEnd)

/-- The operator-identity resolution of `sync_leave_records`: the configured
admin id, else the first local employee id. -/
def opOf (env : Env) (db : DB) : Option String :=
  match env.admin_userid with
  | some a => some a
  | none => (db.employees.map (fun r => r.userid)).head?

/-- Embeds `sync_leave_records`: resolve an operator identity, require at
least one local employee and one local leave type — each precondition
failure marks the log `failed` and returns normally, before anything is
deleted — then delete the target year's records and rebuild them from the
fetched data. -/
def sync_leave_records (env : Env) (db : DB) : DB × Except String String :=
  match opOf env db with
  | none =>
      let msg := "No op_userid available, skipping leave record sync"
      ({ db with logs := db.logs ++ [⟨"leave_record", "failed", msg⟩] }, .ok msg)
  | some opId =>
      let all_userids := db.employees.map (fun r => r.userid)
      if all_userids.isEmpty then
        let msg := "No employees found, skipping leave record sync"
        ({ db with logs := db.logs ++ [⟨"leave_record", "failed", msg⟩] }, .ok msg)
      else if db.leaveTypes.isEmpty then
        let msg := "No leave types found, skipping leave record sync"
        ({ db with logs := db.logs ++ [⟨"leave_record", "failed", msg⟩] }, .ok msg)
      else
        let rows := stageRows env opId (whitelistedTypes env db) all_userids
        let cleared := db.leaveRecords.filter
          (fun r => !(inYear env.yearStart env.yearEnd r))
        let msg := "Synced " ++ toString rows.length ++ " leave records for " ++
          toString all_userids.length ++ " employees, year=" ++ toString env.year
        ({ db with leaveRecords := rows.foldl upsertRecord cleared,
                   logs := db.logs ++ [⟨"leave_record", "success", msg⟩] }, .ok msg)

/-- Embeds `full_sync` (lines 435-463): the four stages run sequentially;
a stage that raises (returns `.error`) marks the wrapping `full` log
`failed` and stops the pipeline; otherwise the summaries are joined and the
`full` log marked `success`. -/
def full_sync (env : Env) (fuel : ℕ) (db : DB) : Option (DB × Except String String) :=
  match sync_departments env fuel db with
  | none => none
  | some (db1, .error e) =>
      let msg := "Full sync failed: " ++ e
      some ({ db1 with logs := db1.logs ++ [⟨"full", "failed", msg⟩] }, .error msg)
  | some (db1, .ok m1) =>
    match sync_employees env db1 with
    | (db2, .error e) =>
        let msg := "Full sync failed: " ++ e
        some ({ db2 with logs := db2.logs ++ [⟨"full", "failed", msg⟩] }, .error msg)
    | (db2, .ok m2) =>
      match sync_leave_types env db2 with
      | (db3, .error e) =>
          let msg := "Full sync failed: " ++ e
          some ({ db3 with logs := db3.logs ++ [⟨"full", "failed", msg⟩] }, .error msg)
      | (db3, .ok m3) =>
        match sync_leave_records env db3 with
        | (db4, .error e) =>
            let msg := "Full sync failed: " ++ e
            some ({ db4 with logs := db4.logs ++ [⟨"full", "failed", msg⟩] }, .error msg)
        | (db4, .ok m4) =>
            let combined := m1 ++ "; " ++ m2 ++ "; " ++ m3 ++ "; " ++ m4
            some ({ db4 with logs := db4.logs ++ [⟨"full", "success", combined⟩] },
              .ok combined)

/-!
Claim C7: the department BFS.
-/

/-- The child list a fetch would deliver, empty on a raising fetch (used
only to bound the traversal). -/
def okChildren (children : ℤ → Except String (List DeptInfo)) (d : ℤ) :
    List DeptInfo :=
  match children d with
  | .ok l => l
  | .error _ => []

/-- The visited set makes every fetched id fresh: the fetch trace of a
completed BFS has no duplicates. -/
theorem bfsAux_trace_nodup (children : ℤ → Except String (List DeptInfo)) :
    ∀ (fuel : ℕ) (queue : List ℤ) (visited : Finset ℤ) (tbl : List DeptRow)
      (count : ℕ) (trace : List ℤ) (tbl2 : List DeptRow) (count2 : ℕ)
      (vis2 : Finset ℤ) (trace2 : List ℤ),
      trace.Nodup → (∀ t ∈ trace, t ∈ visited) →
      bfsAux children fuel queue visited tbl count trace =
        some (.ok (tbl2, count2, vis2, trace2)) →
      trace2.Nodup := by
  intro fuel
  induction fuel with
  | zero =>
      intro queue visited tbl count trace tbl2 count2 vis2 trace2 hnd hsub heq
      cases queue with
      | nil =>
          simp only [bfsAux, Option.some.injEq, Except.ok.injEq,
            Prod.mk.injEq] at heq
          obtain ⟨-, -, -, h4⟩ := heq
          exact h4 ▸ hnd
      | cons p rest => simp [bfsAux] at heq
  | succ n ih =>
      intro queue visited tbl count trace tbl2 count2 vis2 trace2 hnd hsub heq
      cases queue with
      | nil =>
          simp only [bfsAux, Option.some.injEq, Except.ok.injEq,
            Prod.mk.injEq] at heq
          obtain ⟨-, -, -, h4⟩ := heq
          exact h4 ▸ hnd
      | cons p rest =>
          rw [bfsAux] at heq
          by_cases hp : p ∈ visited
          · rw [if_pos hp] at heq
            exact ih rest visited tbl count trace tbl2 count2 vis2 trace2 hnd hsub heq
          · rw [if_neg hp] at heq
            cases hc : children p with
            | error e => rw [hc] at heq; simp at heq
            | ok subs =>
                rw [hc] at heq
                refine ih _ _ _ _ (trace ++ [p]) tbl2 count2 vis2 trace2 ?_ ?_ heq
                · refine List.nodup_append.mpr ⟨hnd, List.nodup_singleton p, ?_⟩
                  intro a ha hb
                  rw [List.mem_singleton] at hb
                  exact hp (hb ▸ hsub a ha)
                · intro t ht
                  rcases List.mem_append.mp ht with h | h
                  · exact Finset.mem_insert_of_mem (hsub t h)
                  · rw [List.mem_singleton] at h
                    exact h ▸ Finset.mem_insert_self p visited

/-- Termination of the BFS on a finite remote tree: when a finite set `U`
contains every reachable id (closed under the child relation), a fuel of
the queue length plus one-plus-child-count over the unvisited part of `U`
suffices for the loop to finish. -/
theorem bfsAux_isSome (children : ℤ → Except String (List DeptInfo))
    (U : Finset ℤ) (hU : ∀ d, ∀ c ∈ okChildren children d, c.dept_id ∈ U) :
    ∀ (fuel : ℕ) (queue : List ℤ) (visited : Finset ℤ) (tbl : List DeptRow)
      (count : ℕ) (trace : List ℤ),
      (∀ q ∈ queue, q ∈ U) →
      queue.length +
        ((U \ visited).sum (fun p => 1 + (okChildren children p).length)) ≤ fuel →
      (bfsAux children fuel queue visited tbl count trace).isSome = true := by
  intro fuel
  induction fuel with
  | zero =>
      intro queue visited tbl count trace hq hfuel
      cases queue with
      | nil => rw [bfsAux]; rfl
      | cons p rest => simp at hfuel
  | succ n ih =>
      intro queue visited tbl count trace hq hfuel
      cases queue with
      | nil => rw [bfsAux]; rfl
      | cons p rest =>
          rw [bfsAux]
          by_cases hp : p ∈ visited
          · rw [if_pos hp]
            refine ih rest visited tbl count trace
              (fun q hmem => hq q (List.mem_cons_of_mem p hmem)) ?_
            simp only [List.length_cons] at hfuel
            omega
          · rw [if_neg hp]
            cases hc : children p with
            | error e => rfl
            | ok subs =>
                have hpU : p ∈ U \ visited :=
                  Finset.mem_sdiff.mpr ⟨hq p (List.mem_cons_self p rest), hp⟩
                have hsum :
                    (1 + (okChildren children p).length) +
                      ((U \ insert p visited).sum
                        (fun x => 1 + (okChildren children x).length)) =
                      (U \ visited).sum
                        (fun x => 1 + (okChildren children x).length) := by
                  rw [Finset.sdiff_insert]
                  exact Finset.add_sum_erase (U \ visited)
                    (fun x => 1 + (okChildren children x).length) hpU
                have hlen : (okChildren children p).length = subs.length := by
                  rw [okChildren, hc]
                refine ih (rest ++ subs.map (fun d => d.dept_id)) (insert p visited)
                  (subs.foldl upsertDept tbl) (count + subs.length) (trace ++ [p])
                  ?_ ?_
                · intro q hmem
                  rcases List.mem_append.mp hmem with h | h
                  · exact hq q (List.mem_cons_of_mem p h)
                  · obtain ⟨c, hcm, hcq⟩ := List.mem_map.mp h
                    refine hcq ▸ hU p c ?_
                    rw [okChildren, hc]
                    exact hcm
                · simp only [List.length_append, List.length_map]
                  simp only [List.length_cons] at hfuel
                  omega

/-- The C7 scenario vendor: root department 55205497 with exactly one child
100 named "Eng" and no grandchildren. -/
def c7Children : ℤ → Except String (List DeptInfo) :=
  fun d => if d = 55205497 then .ok [⟨100, "Eng", some 55205497⟩] else .ok []

/-- An empty local store. -/
def dbEmpty : DB := ⟨[], [], [], [], []⟩

/-- The C7 scenario environment (only the department fetcher matters). -/
def c7Env : Env :=
  ⟨55205497, none, "", 0, 0, 0, c7Children,
    fun _ => .ok [], fun _ => .error "unused", fun _ _ _ => .error "unused"⟩

/-- C7: the department BFS fetches each department id's child list at most
once (its fetch trace is duplicate-free), terminates on every finite remote
tree (a fuel bounded by the tree suffices), and on the scenario of root
55205497 with the single child 100 "Eng" it upserts exactly that one row and
reports count 1. -/
theorem C7_department_bfs_once_and_terminates :
    (∀ (children : ℤ → Except String (List DeptInfo)) (fuel : ℕ)
       (queue : List ℤ) (visited : Finset ℤ) (tbl tbl2 : List DeptRow)
       (count count2 : ℕ) (trace trace2 : List ℤ) (vis2 : Finset ℤ),
       trace.Nodup → (∀ t ∈ trace, t ∈ visited) →
       bfsAux children fuel queue visited tbl count trace =
         some (.ok (tbl2, count2, vis2, trace2)) →
       trace2.Nodup) ∧
    (∀ (children : ℤ → Except String (List DeptInfo)) (U : Finset ℤ),
       (∀ d, ∀ c ∈ okChildren children d, c.dept_id ∈ U) →
       ∀ (fuel : ℕ) (queue : List ℤ) (visited : Finset ℤ) (tbl : List DeptRow)
         (count : ℕ) (trace : List ℤ),
         (∀ q ∈ queue, q ∈ U) →
         queue.length +
           ((U \ visited).sum (fun p => 1 + (okChildren children p).length)) ≤
             fuel →
         (bfsAux children fuel queue visited tbl count trace).isSome = true) ∧
    sync_departments c7Env 2 dbEmpty =
      some (⟨[⟨100, "Eng", some 55205497⟩], [], [], [],
          [⟨"department", "success", "Synced 1 departments"⟩]⟩,
        .ok "Synced 1 departments") := by
  refine ⟨?_, ?_, rfl⟩
  · intro children fuel queue visited tbl tbl2 count count2 trace trace2 vis2
      hnd hsub heq
    exact bfsAux_trace_nodup children fuel queue visited tbl count trace
      tbl2 count2 vis2 trace2 hnd hsub heq
  · exact bfsAux_isSome

/-- Witness for C7 at concrete inputs: the scenario fetch trace
[55205497, 100] is duplicate-free, and fuel 4 (= 1 + the bound over
U = {55205497, 100}) completes the scenario BFS. -/
theorem C7_department_bfs_once_and_terminates_witness :
    ([(55205497 : ℤ), 100]).Nodup ∧
    (bfsAux c7Children 4 [55205497] ∅ [] 0 []).isSome = true := by
  constructor
  · exact C7_department_bfs_once_and_terminates.1 c7Children 2 [55205497] ∅
      [] [⟨100, "Eng", some 55205497⟩] 0 1 [] [55205497, 100]
      (insert 100 (insert 55205497 ∅)) (by decide) (by simp) rfl
  · refine C7_department_bfs_once_and_terminates.2.1 c7Children
      ({55205497, 100} : Finset ℤ) ?_ 4 [55205497] ∅ [] 0 [] ?_ ?_
    · intro d c hc
      by_cases hd : d = 55205497
      · subst hd
        simp [okChildren, c7Children] at hc
        subst hc
        decide
      · simp [okChildren, c7Children, hd] at hc
    · intro q hq
      rw [List.mem_singleton] at hq
      subst hq
      decide
    · decide

/-!
Lemmas about the leave-record stage (claims C4, C6, C10).
-/

/-- A processed record's `start_time` lies within the target year. -/
theorem processRec_inYear {ys ye : ℤ} {vu ln lc : String} {r : VacRec}
    {row : LeaveRecordRow} (h : processRec ys ye vu ln lc r = some row) :
    inYear ys ye row = true := by
  unfold processRec at h
  simp only [] at h
  repeat' split at h
  all_goals try exact Option.noConfusion h
  all_goals obtain rfl := Option.some.inj h
  all_goals simp_all [inYear]

/-- Every upsert the stage performs targets the synced year. -/
theorem stageRows_inYear (env : Env) (op : String) (types : List LeaveTypeRow)
    (userids : List String) :
    ∀ row ∈ stageRows env op types userids,
      inYear env.yearStart env.yearEnd row = true := by
  intro row hrow
  rw [stageRows] at hrow
  obtain ⟨lt, hlt, hrow⟩ := List.mem_flatMap.mp hrow
  obtain ⟨batch, hb, hrow⟩ := List.mem_flatMap.mp hrow
  cases hc : env.recFetch op lt.leave_code batch with
  | error e => rw [hc] at hrow; cases hrow
  | ok recs =>
      rw [hc] at hrow
      obtain ⟨v, hv, hpr⟩ := List.mem_filterMap.mp hrow
      exact processRec_inYear hpr

/-- Whenever one of the three preconditions fails, the stage marks its log
`failed`, returns normally, and leaves every table — in particular
`leave_record` — untouched. -/
theorem slr_precondition_failure (env : Env) (db : DB)
    (h : opOf env db = none ∨ db.employees = [] ∨ db.leaveTypes = []) :
    (sync_leave_records env db).1.leaveRecords = db.leaveRecords ∧
    (sync_leave_records env db).1.employees = db.employees ∧
    (sync_leave_records env db).1.leaveTypes = db.leaveTypes ∧
    (sync_leave_records env db).1.logs.getLast?.map
      (fun l => (l.sync_type, l.status)) = some ("leave_record", "failed") ∧
    ∃ m, (sync_leave_records env db).2 = .ok m := by
  cases hop : opOf env db with
  | none =>
      simp [sync_leave_records, hop, List.getLast?_concat]
  | some opId =>
      have hcase : db.employees = [] ∨ (db.employees ≠ [] ∧ db.leaveTypes = []) := by
        rcases h with h | h | h
        · rw [hop] at h; exact Option.noConfusion h
        · exact Or.inl h
        · by_cases hemp : db.employees = []
          · exact Or.inl hemp
          · exact Or.inr ⟨hemp, h⟩
      rcases hcase with hemp | ⟨hemp, htys⟩
      · have hne : ((db.employees.map (fun r => r.userid)).isEmpty) = true := by
          rw [hemp]; rfl
        simp [sync_leave_records, hop, hne, List.getLast?_concat]
      · have hne : ((db.employees.map (fun r => r.userid)).isEmpty) = false := by
          rcases hE : db.employees with _ | ⟨x, xs⟩
          · exact absurd hE hemp
          · rfl
        have hte : db.leaveTypes.isEmpty = true := by rw [htys]; rfl
        simp [sync_leave_records, hop, hne, hte, List.getLast?_concat]

/-- When every precondition holds, the stage deletes the year's rows, folds
in the fetched upserts, and marks its log `success`. -/
theorem slr_success (env : Env) (db : DB) (opId : String)
    (hop : opOf env db = some opId) (he : db.employees ≠ [])
    (ht : db.leaveTypes ≠ []) :
    (sync_leave_records env db).1.leaveRecords =
      (stageRows env opId (whitelistedTypes env db)
          (db.employees.map (fun r => r.userid))).foldl upsertRecord
        (db.leaveRecords.filter
          (fun r => !(inYear env.yearStart env.yearEnd r))) ∧
    (sync_leave_records env db).1.employees = db.employees ∧
    (sync_leave_records env db).1.leaveTypes = db.leaveTypes ∧
    (sync_leave_records env db).1.logs.getLast?.map
      (fun l => (l.sync_type, l.status)) = some ("leave_record", "success") ∧
    ∃ m, (sync_leave_records env db).2 = .ok m := by
  have hne : ((db.employees.map (fun r => r.userid)).isEmpty) = false := by
    rcases hE : db.employees with _ | ⟨x, xs⟩
    · exact absurd hE he
    · rfl
  have hte : db.leaveTypes.isEmpty = false := by
    rcases hT : db.leaveTypes with _ | ⟨x, xs⟩
    · exact absurd hT ht
    · rfl
  simp [sync_leave_records, hop, hne, hte, List.getLast?_concat]

/-- Filtering commutes with a map that fixes the kept elements and preserves
the predicate. -/
theorem filter_map_fix {α : Type} (p : α → Bool) (g : α → α)
    (h1 : ∀ x, p (g x) = p x) (h2 : ∀ x, p x = true → g x = x) :
    ∀ l : List α, (l.map g).filter p = l.filter p := by
  intro l
  induction l with
  | nil => rfl
  | cons x xs ih =>
      rw [List.map_cons, List.filter_cons, List.filter_cons, h1 x]
      cases hp : p x
      · simp only [Bool.false_eq_true, if_false, ih]
      · simp only [if_true, ih, h2 x hp]

/-- Upserting an in-year record does not change the out-of-year remainder. -/
theorem clear_upsert (ys ye : ℤ) (r : LeaveRecordRow)
    (hr : inYear ys ye r = true) (tbl : List LeaveRecordRow) :
    (upsertRecord tbl r).filter (fun x => !(inYear ys ye x)) =
      tbl.filter (fun x => !(inYear ys ye x)) := by
  rw [upsertRecord]
  split
  · refine filter_map_fix _ _ ?_ ?_ tbl
    · intro x
      by_cases hk : sameRecordKey x r = true
      · rw [if_pos hk]
        simp [inYear]
      · rw [if_neg hk]
    · intro x hp
      by_cases hk : sameRecordKey x r = true
      · exfalso
        rw [sameRecordKey, decide_eq_true_eq] at hk
        obtain ⟨hu, hs, hE⟩ := hk
        rw [Bool.not_eq_eq_eq_not, Bool.not_true] at hp
        rw [inYear, decide_eq_true_eq] at hr
        rw [inYear, hs, decide_eq_false_iff_not] at hp
        exact hp hr
      · rw [if_neg hk]
  · rw [List.filter_append]
    simp [hr]

/-- A fold of in-year upserts does not change the out-of-year remainder. -/
theorem clear_foldl (ys ye : ℤ) :
    ∀ (rows : List LeaveRecordRow) (tbl : List LeaveRecordRow),
      (∀ r ∈ rows, inYear ys ye r = true) →
      (rows.foldl upsertRecord tbl).filter (fun x => !(inYear ys ye x)) =
        tbl.filter (fun x => !(inYear ys ye x)) := by
  intro rows
  induction rows with
  | nil => intro tbl h; rfl
  | cons r rs ih =>
      intro tbl h
      rw [List.foldl_cons,
        ih (upsertRecord tbl r) (fun x hx => h x (List.mem_cons_of_mem r hx)),
        clear_upsert ys ye r (h r (List.mem_cons_self r rs)) tbl]

/-- Filtering to the out-of-year remainder is idempotent. -/
theorem filter_not_inYear_idem (ys ye : ℤ) (tbl : List LeaveRecordRow) :
    ((tbl.filter (fun x => !(inYear ys ye x))).filter
        (fun x => !(inYear ys ye x))) =
      tbl.filter (fun x => !(inYear ys ye x)) := by
  rw [List.filter_filter]
  simp [Bool.and_self]

/-- With at least one local employee, operator resolution always succeeds. -/
theorem opOf_isSome_of_employees (env : Env) (db : DB)
    (he : db.employees ≠ []) : ∃ o, opOf env db = some o := by
  rw [opOf]
  cases env.admin_userid with
  | some a => exact ⟨a, rfl⟩
  | none =>
      rcases hE : db.employees with _ | ⟨x, xs⟩
      · exact absurd hE he
      · exact ⟨x.userid, rfl⟩

/-- Operator resolution reads only the configuration and the employee
table. -/
theorem opOf_congr (env : Env) (db1 db2 : DB)
    (h : db1.employees = db2.employees) : opOf env db1 = opOf env db2 := by
  rw [opOf, opOf, h]

/-- The whitelist restriction reads only the configuration and the
leave-type table. -/
theorem whitelistedTypes_congr (env : Env) (db1 db2 : DB)
    (h : db1.leaveTypes = db2.leaveTypes) :
    whitelistedTypes env db1 = whitelistedTypes env db2 := by
  rw [whitelistedTypes, whitelistedTypes, h]

/-- C4: leave-record sync pre-clears the target year by `start_time` and
rebuilds by upserts keyed on `(userid, start_time, end_time)`, so running
the stage twice in a row against identical vendor responses yields an
identical `leave_record` table. -/
theorem C4_leave_record_resync_idempotent :
    ∀ (env : Env) (db : DB),
      (sync_leave_records env ((sync_leave_records env db).1)).1.leaveRecords =
        (sync_leave_records env db).1.leaveRecords := by
  intro env db
  by_cases hpre : opOf env db = none ∨ db.employees = [] ∨ db.leaveTypes = []
  · obtain ⟨hR, hE, hT, -, -⟩ := slr_precondition_failure env db hpre
    have hpre1 : opOf env (sync_leave_records env db).1 = none ∨
        (sync_leave_records env db).1.employees = [] ∨
        (sync_leave_records env db).1.leaveTypes = [] := by
      rcases hpre with h | h | h
      · exact Or.inl ((opOf_congr env _ db hE).trans h)
      · exact Or.inr (Or.inl (hE.trans h))
      · exact Or.inr (Or.inr (hT.trans h))
    exact (slr_precondition_failure env _ hpre1).1
  · push_neg at hpre
    obtain ⟨hop0, he, ht⟩ := hpre
    obtain ⟨opId, hop⟩ := opOf_isSome_of_employees env db he
    obtain ⟨hR, hE, hT, -, -⟩ := slr_success env db opId hop he ht
    have hop1 : opOf env (sync_leave_records env db).1 = some opId :=
      (opOf_congr env _ db hE).trans hop
    have he1 : (sync_leave_records env db).1.employees ≠ [] := by
      rw [hE]; exact he
    have ht1 : (sync_leave_records env db).1.leaveTypes ≠ [] := by
      rw [hT]; exact ht
    obtain ⟨hR1, -, -, -, -⟩ :=
      slr_success env (sync_leave_records env db).1 opId hop1 he1 ht1
    rw [hR1, whitelistedTypes_congr env _ db hT, hE, hR,
      clear_foldl env.yearStart env.yearEnd _ _
        (stageRows_inYear env opId (whitelistedTypes env db)
          (db.employees.map (fun r => r.userid))),
      filter_not_inYear_idem]

/-- C10: `sync_leave_records` checks its three preconditions (operator
identity, at least one employee, at least one leave type) before the
destructive year pre-clear; on any failure the log is marked `failed`, the
function returns normally, and the `leave_record` table is untouched. -/
theorem C10_preconditions_guard_preclear :
    ∀ (env : Env) (db : DB),
      (opOf env db = none ∨ db.employees = [] ∨ db.leaveTypes = []) →
      (sync_leave_records env db).1.leaveRecords = db.leaveRecords ∧
      (sync_leave_records env db).1.logs.getLast?.map
        (fun l => (l.sync_type, l.status)) = some ("leave_record", "failed") ∧
      ∃ m, (sync_leave_records env db).2 = .ok m := by
  intro env db h
  obtain ⟨h1, -, -, h4, h5⟩ := slr_precondition_failure env db h
  exact ⟨h1, h4, h5⟩

/-- An environment for the precondition witness: no admin configured. -/
def c10Env : Env :=
  ⟨1, none, "", 0, 0, 0, fun _ => .ok [], fun _ => .ok [],
    fun _ => .error "unused", fun _ _ _ => .error "unused"⟩

/-- A store holding one out-of-scope leave record but no employees. -/
def c10DB : DB :=
  ⟨[], [], [⟨"T1", "Annual", some "day", some 800⟩],
    [⟨"u9", 77, 99, 100, "percent_day", "Annual", some "T1", "已审批"⟩], []⟩

/-- Witness for C10: with no admin and no employees the stage fails fast and
the pre-existing leave record survives unchanged. -/
theorem C10_preconditions_guard_preclear_witness :
    (sync_leave_records c10Env c10DB).1.leaveRecords =
      [⟨"u9", 77, 99, 100, "percent_day", "Annual", some "T1", "已审批"⟩] ∧
    (sync_leave_records c10Env c10DB).1.logs.getLast?.map
      (fun l => (l.sync_type, l.status)) = some ("leave_record", "failed") := by
  obtain ⟨h1, h2, -⟩ :=
    C10_preconditions_guard_preclear c10Env c10DB (Or.inl rfl)
  exact ⟨h1, h2⟩

/-- The conflict-overwrite of `upsertRecord` keeps the natural key, so key
comparison is unaffected. -/
theorem sameRecordKey_overwrite (x r k : LeaveRecordRow) :
    sameRecordKey
      { x with duration_percent := r.duration_percent,
               duration_unit := r.duration_unit, leave_type := r.leave_type,
               leave_code := r.leave_code } k = sameRecordKey x k := by
  rw [sameRecordKey, sameRecordKey]

/-- After an upsert, a row with the upserted record's key is present. -/
theorem upsertRecord_key_present (tbl : List LeaveRecordRow)
    (r : LeaveRecordRow) :
    ∃ x ∈ upsertRecord tbl r, sameRecordKey x r = true := by
  rw [upsertRecord]
  split
  · rename_i hany
    obtain ⟨x, hx, hkey⟩ := List.any_eq_true.mp hany
    refine ⟨if sameRecordKey x r then
      { x with duration_percent := r.duration_percent,
               duration_unit := r.duration_unit, leave_type := r.leave_type,
               leave_code := r.leave_code } else x, List.mem_map_of_mem _ hx, ?_⟩
    rw [if_pos hkey, sameRecordKey_overwrite]
    exact hkey
  · exact ⟨r, List.mem_append_right tbl (List.mem_singleton.mpr rfl),
      by rw [sameRecordKey]; simp⟩

/-- An upsert never removes a key that was present. -/
theorem upsertRecord_key_preserved (tbl : List LeaveRecordRow)
    (r k : LeaveRecordRow) (h : ∃ x ∈ tbl, sameRecordKey x k = true) :
    ∃ x ∈ upsertRecord tbl r, sameRecordKey x k = true := by
  obtain ⟨x, hx, hkey⟩ := h
  rw [upsertRecord]
  split
  · refine ⟨if sameRecordKey x r then
      { x with duration_percent := r.duration_percent,
               duration_unit := r.duration_unit, leave_type := r.leave_type,
               leave_code := r.leave_code } else x, List.mem_map_of_mem _ hx, ?_⟩
    split
    · rw [sameRecordKey_overwrite]; exact hkey
    · exact hkey
  · exact ⟨x, List.mem_append_left _ hx, hkey⟩

/-- Folding a list of upserts keeps every previously present key. -/
theorem foldl_key_preserved :
    ∀ (rows : List LeaveRecordRow) (tbl : List LeaveRecordRow)
      (k : LeaveRecordRow), (∃ x ∈ tbl, sameRecordKey x k = true) →
      ∃ x ∈ rows.foldl upsertRecord tbl, sameRecordKey x k = true := by
  intro rows
  induction rows with
  | nil => intro tbl k h; exact h
  | cons r rs ih =>
      intro tbl k h
      exact ih (upsertRecord tbl r) k (upsertRecord_key_preserved tbl r k h)

/-- Every performed upsert leaves a row with its key in the final table. -/
theorem foldl_key_present :
    ∀ (rows : List LeaveRecordRow) (tbl : List LeaveRecordRow)
      (row : LeaveRecordRow), row ∈ rows →
      ∃ x ∈ rows.foldl upsertRecord tbl, sameRecordKey x row = true := by
  intro rows
  induction rows with
  | nil => intro tbl row h; cases h
  | cons r rs ih =>
      intro tbl row h
      rcases List.mem_cons.mp h with rfl | h
      · exact foldl_key_preserved rs (upsertRecord tbl row) row
          (upsertRecord_key_present tbl row)
      · exact ih (upsertRecord tbl r) row h

/-- C6: a fetch failure for one (leave-type, batch) pair is skipped without
aborting the stage: whenever the preconditions hold the stage log still
finishes `success`, and every record of a pair whose fetch succeeded is
upserted (it appears in the stage's upsert sequence and its key survives
into the final table), regardless of any other pair's failure. -/
theorem C6_batch_failure_isolated :
    ∀ (env : Env) (db : DB) (opId : String),
      opOf env db = some opId → db.employees ≠ [] → db.leaveTypes ≠ [] →
      (sync_leave_records env db).1.logs.getLast?.map
        (fun l => (l.sync_type, l.status)) = some ("leave_record", "success") ∧
      ∀ lt ∈ whitelistedTypes env db,
        ∀ batch ∈ chunks50 (db.employees.map (fun r => r.userid)),
        ∀ recs, env.recFetch opId lt.leave_code batch = .ok recs →
        ∀ row ∈ recs.filterMap (processRec env.yearStart env.yearEnd
            (viewUnitOrDay lt.leave_view_unit) lt.leave_name lt.leave_code),
          row ∈ stageRows env opId (whitelistedTypes env db)
            (db.employees.map (fun r => r.userid)) ∧
          ∃ x ∈ (sync_leave_records env db).1.leaveRecords,
            sameRecordKey x row = true := by
  intro env db opId hop he ht
  obtain ⟨hR, -, -, hlog, -⟩ := slr_success env db opId hop he ht
  refine ⟨hlog, ?_⟩
  intro lt hlt batch hb recs hfetch row hrow
  have hmem : row ∈ stageRows env opId (whitelistedTypes env db)
      (db.employees.map (fun r => r.userid)) := by
    rw [stageRows]
    refine List.mem_flatMap.mpr ⟨lt, hlt, List.mem_flatMap.mpr ⟨batch, hb, ?_⟩⟩
    rw [hfetch]
    exact hrow
  refine ⟨hmem, ?_⟩
  rw [hR]
  exact foldl_key_present _ _ row hmem

/-- The C6 witness store: one employee and two leave types A and B. -/
def c6DB : DB :=
  ⟨[], [⟨"u1", "User One", 1, none⟩],
    [⟨"A", "TypeA", some "day", some 800⟩, ⟨"B", "TypeB", some "day", some 800⟩],
    [], []⟩

/-- The C6 witness vendor record for type B. -/
def c6Vac : VacRec :=
  ⟨"u1", some "B", some 10, some 20, some 100, none, some "day", some "success"⟩

/-- The C6 witness environment: fetching type A always fails, fetching
type B succeeds with one record. -/
def c6Env : Env :=
  ⟨1, some "admin", "", 0, 0, 100, fun _ => .ok [], fun _ => .ok [],
    fun _ => .error "unused",
    fun _ lc _ => if lc = "A" then .error "boom" else .ok [c6Vac]⟩

/-- The row the stage builds from `c6Vac`. -/
def c6Row : LeaveRecordRow :=
  ⟨"u1", 10, 20, 100, "percent_day", "TypeB", some "B", "已审批"⟩

/-- Witness for C6: despite type A's batches all failing, the stage
succeeds and type B's record is upserted. -/
theorem C6_batch_failure_isolated_witness :
    (sync_leave_records c6Env c6DB).1.logs.getLast?.map
      (fun l => (l.sync_type, l.status)) = some ("leave_record", "success") ∧
    c6Row ∈ stageRows c6Env "admin" (whitelistedTypes c6Env c6DB)
      (c6DB.employees.map (fun r => r.userid)) := by
  obtain ⟨hlog, hiso⟩ := C6_batch_failure_isolated c6Env c6DB "admin" rfl
    (by decide) (by decide)
  refine ⟨hlog, ?_⟩
  exact (hiso ⟨"B", "TypeB", some "day", some 800⟩ (by decide) ["u1"]
    (by decide) [c6Vac] rfl c6Row (by decide)).1

/-- When the fetch fails for every candidate, the fallback loop exhausts. -/
theorem tryCandidates_all_fail (f : String → Except String (List LeaveTypeFetched))
    (hfail : ∀ u, ∃ e, f u = .error e) :
    ∀ l : List String, tryCandidates f l = none := by
  intro l
  induction l with
  | nil => rfl
  | cons c rest ih =>
      obtain ⟨e, he⟩ := hfail c
      rw [tryCandidates, he, ih]

/-- The leave-type stage always returns normally, appending exactly one
finished log row whose message it returns. -/
theorem slt_appends_log (env : Env) (db : DB) :
    ∃ s m, (sync_leave_types env db).2 = .ok m ∧
      (sync_leave_types env db).1.logs = db.logs ++ [⟨"leave_type", s, m⟩] := by
  rw [sync_leave_types]
  simp only []
  repeat' split
  all_goals first
    | exact ⟨"failed", _, rfl, rfl⟩
    | exact ⟨"success", _, rfl, rfl⟩

/-- The leave-record stage always returns normally, appending exactly one
finished log row whose message it returns. -/
theorem slr_appends_log (env : Env) (db : DB) :
    ∃ s m, (sync_leave_records env db).2 = .ok m ∧
      (sync_leave_records env db).1.logs =
        db.logs ++ [⟨"leave_record", s, m⟩] := by
  rw [sync_leave_records]
  cases hop : opOf env db with
  | none => exact ⟨"failed", _, rfl, rfl⟩
  | some o =>
      simp only []
      repeat' split
      all_goals first
        | exact ⟨"failed", _, rfl, rfl⟩
        | exact ⟨"success", _, rfl, rfl⟩

/-- C3 (amended): when every operator-identity candidate fails, the
leave-type stage's log row is marked `failed`, but the stage returns
normally rather than raising; a full sync therefore does NOT abort there:
whenever the two earlier stages return normally, the pipeline still attempts
the leave-record stage and the `full` log finishes `success`. -/
theorem C3_leave_type_failure_not_fatal :
    ∀ (env : Env) (db : DB),
      (∀ u, ∃ e, env.typesFetch u = .error e) →
      ((sync_leave_types env db).1.logs.getLast?.map
          (fun l => (l.sync_type, l.status)) = some ("leave_type", "failed") ∧
        ∃ m, (sync_leave_types env db).2 = .ok m) ∧
      (∀ (fuel : ℕ) (db0 db1 db2 : DB) (m1 m2 : String),
        sync_departments env fuel db0 = some (db1, .ok m1) →
        sync_employees env db1 = (db2, .ok m2) →
        ∃ dbF mF, full_sync env fuel db0 = some (dbF, .ok mF) ∧
          dbF.logs.any (fun l => decide (l.sync_type = "leave_record")) = true ∧
          dbF.logs.getLast?.map (fun l => (l.sync_type, l.status)) =
            some ("full", "success")) := by
  intro env db hfail
  constructor
  · simp only [sync_leave_types, tryCandidates_all_fail env.typesFetch hfail]
    split
    · exact ⟨by simp [List.getLast?_concat], _, rfl⟩
    · exact ⟨by simp [List.getLast?_concat], _, rfl⟩
  · intro fuel db0 db1 db2 m1 m2 hd hemp
    obtain ⟨s3, m3, hlt_ok, hlt_logs⟩ := slt_appends_log env db2
    rcases hlt : sync_leave_types env db2 with ⟨db3, r3⟩
    rw [hlt] at hlt_ok hlt_logs
    simp only [] at hlt_ok hlt_logs
    subst hlt_ok
    obtain ⟨s4, m4, hlr_ok, hlr_logs⟩ := slr_appends_log env db3
    rcases hlr : sync_leave_records env db3 with ⟨db4, r4⟩
    rw [hlr] at hlr_ok hlr_logs
    simp only [] at hlr_ok hlr_logs
    subst hlr_ok
    simp only [full_sync, hd, hemp, hlt, hlr]
    refine ⟨_, _, rfl, ?_, ?_⟩
    · simp [hlr_logs, List.any_append]
    · simp [List.getLast?_concat]

/-- The C3 environment: an admin operator is configured but the vendor
rejects the vacation-type query for every operator id; every other endpoint
answers with empty data. -/
def c3Env : Env :=
  ⟨1, some "admin", "", 0, 0, 0, fun _ => .ok [], fun _ => .ok [],
    fun _ => .error "forbidden", fun _ _ _ => .error "unused"⟩

/-- C3 counterexample: `c3Env.typesFetch` fails for every candidate, so the
leave-type stage log is `failed` — yet the full pipeline run still attempts
the leave-record stage and finishes with the `full` log `success`, contrary
to the claim that the pipeline aborts before the leave-record stage. -/
theorem C3_counterexample_full_continues :
    (full_sync c3Env 1 dbEmpty).map
      (fun x => x.1.logs.map (fun l => (l.sync_type, l.status))) =
      some [("department", "success"), ("employee", "success"),
            ("leave_type", "failed"), ("leave_record", "failed"),
            ("full", "success")] := by
  rfl

/-- Witness for the amended C3 theorem at the concrete environment. -/
theorem C3_leave_type_failure_not_fatal_witness :
    (sync_leave_types c3Env dbEmpty).1.logs.getLast?.map
      (fun l => (l.sync_type, l.status)) = some ("leave_type", "failed") ∧
    (full_sync c3Env 1 dbEmpty).map
      (fun x => x.1.logs.any (fun l => decide (l.sync_type = "leave_record"))) =
      some true := by
  obtain ⟨⟨h1, -⟩, h2⟩ := C3_leave_type_failure_not_fatal c3Env dbEmpty
    (fun u => ⟨"forbidden", rfl⟩)
  refine ⟨h1, ?_⟩
  obtain ⟨dbF, mF, hfull, hany, -⟩ := h2 1 dbEmpty
    ⟨[], [], [], [], [⟨"department", "success", "Synced 0 departments"⟩]⟩
    ⟨[], [], [], [],
      [⟨"department", "success", "Synced 0 departments"⟩,
       ⟨"employee", "success", "Synced 0 employees across 1 departments"⟩]⟩
    "Synced 0 departments" "Synced 0 employees across 1 departments" rfl rfl
  rw [hfull]
  simpa using hany

/-!
Claim C8: the sync router (`src/backend/app/routers/sync.py`).  The handler
and the background tasks share one `asyncio.Lock`; a task runs `full_sync`
only inside `async with _sync_lock`.  The lock discipline is embedded as a
small state machine: tasks are scheduled by accepted trigger requests, enter
the running section only by acquiring the free lock, and on release the
lock passes to the first waiter.
-/

/-- The router state: the lock holder (the task currently inside
`full_sync`), the acquire queue, the scheduled-but-not-started background
tasks, the running section occupants, and a fresh task counter. -/
structure RouterState where
  lockOwner : Option ℕ
  waiting : List ℕ
  scheduled : List ℕ
  running : List ℕ
  nextId : ℕ
  deriving DecidableEq, Repr

/-- The response body of the trigger endpoint. -/
structure TriggerReply where
  success : Bool
  message : String
  deriving DecidableEq, Repr

/-- The initial state: no task exists and the lock is free. -/
def routerInit : RouterState := ⟨none, [], [], [], 0⟩

/-- Embeds `trigger_sync` (lines 42-63): the non-blocking `locked()` check
rejects immediately when the lock is held, otherwise a background task is
scheduled and the request accepted. -/
def trigger_sync (s : RouterState) : RouterState × TriggerReply :=
  if s.lockOwner.isSome then
    (s, ⟨false, "A sync is already running, please wait."⟩)
  else
    ({ s with scheduled := s.scheduled ++ [s.nextId], nextId := s.nextId + 1 },
      ⟨true, "Sync started in background"⟩)

/-- A scheduled task starts `_run_sync` and tries to acquire the lock: it
enters the running section if the lock is free, otherwise it joins the
waiter queue. -/
def startTask (s : RouterState) (t : ℕ) : RouterState :=
  if t ∈ s.scheduled then
    match s.lockOwner with
    | none =>
        { s with scheduled := s.scheduled.erase t, lockOwner := some t,
                 running := s.running ++ [t] }
    | some _ =>
        { s with scheduled := s.scheduled.erase t,
                 waiting := s.waiting ++ [t] }
  else s

/-- The lock holder finishes `full_sync` and releases; the first waiter (if
any) acquires and enters the running section. -/
def finishTask (s : RouterState) (t : ℕ) : RouterState :=
  if s.lockOwner = some t then
    match s.waiting with
    | [] =>
        { s with lockOwner := none, running := s.running.erase t }
    | w :: rest =>
        { s with lockOwner := some w, waiting := rest,
                 running := (s.running.erase t) ++ [w] }
  else s

/-- An event of the router's interleaving. -/
inductive RouterEvent where
  | trigger
  | start (t : ℕ)
  | finish (t : ℕ)
  deriving DecidableEq, Repr

/-- One interleaving step. -/
def routerStep (s : RouterState) : RouterEvent → RouterState
  | .trigger => (trigger_sync s).1
  | .start t => startTask s t
  | .finish t => finishTask s t

/-- The state after a sequence of events from the initial state. -/
def routerRun (evs : List RouterEvent) : RouterState :=
  evs.foldl routerStep routerInit

/-- The lock invariant: the running section is exactly the lock holder. -/
theorem routerRun_running_eq_owner :
    ∀ evs : List RouterEvent,
      (routerRun evs).running = (routerRun evs).lockOwner.toList := by
  have hstep : ∀ (s : RouterState) (e : RouterEvent),
      s.running = s.lockOwner.toList →
      (routerStep s e).running = (routerStep s e).lockOwner.toList := by
    intro s e hinv
    cases e with
    | trigger =>
        rw [routerStep, trigger_sync]
        split
        · exact hinv
        · exact hinv
    | start t =>
        rw [routerStep, startTask]
        split
        · cases ho : s.lockOwner with
          | none =>
              show s.running ++ [t] = (some t).toList
              rw [hinv, ho]
              rfl
          | some u =>
              show s.running = (some u).toList
              rw [hinv, ho]
        · exact hinv
    | finish t =>
        rw [routerStep, finishTask]
        split
        · rename_i howner
          cases hw : s.waiting with
          | nil =>
              show s.running.erase t = (none : Option ℕ).toList
              rw [hinv, howner, Option.toList_some, List.erase_cons_head]
              rfl
          | cons w rest =>
              show (s.running.erase t) ++ [w] = (some w).toList
              rw [hinv, howner, Option.toList_some, List.erase_cons_head]
              rfl
        · exact hinv
  have hrun : ∀ (evs : List RouterEvent) (s : RouterState),
      s.running = s.lockOwner.toList →
      (evs.foldl routerStep s).running =
        (evs.foldl routerStep s).lockOwner.toList := by
    intro evs
    induction evs with
    | nil => intro s h; exact h
    | cons e rest ih =>
        intro s h
        exact ih (routerStep s e) (hstep s e h)
  intro evs
  exact hrun evs routerInit rfl

/-- C8: at most one full sync executes at a time — in every reachable
router state the running section holds at most one task — and a trigger
request arriving while a run is in flight (the lock is held) is rejected
immediately by the non-blocking check, with the state unchanged: no new
task is scheduled or queued. -/
theorem C8_single_sync_and_immediate_reject :
    (∀ evs : List RouterEvent, (routerRun evs).running.length ≤ 1) ∧
    (∀ s : RouterState, s.lockOwner.isSome = true →
      trigger_sync s = (s, ⟨false, "A sync is already running, please wait."⟩)) ∧
    (∀ evs : List RouterEvent, (routerRun evs).running ≠ [] →
      trigger_sync (routerRun evs) =
        (routerRun evs,
          ⟨false, "A sync is already running, please wait."⟩)) := by
  refine ⟨?_, ?_, ?_⟩
  · intro evs
    rw [routerRun_running_eq_owner]
    cases (routerRun evs).lockOwner with
    | none => exact Nat.zero_le 1
    | some t => exact Nat.le_refl 1
  · intro s h
    rw [trigger_sync, if_pos h]
  · intro evs hne
    have h := routerRun_running_eq_owner evs
    have hsome : (routerRun evs).lockOwner.isSome = true := by
      rw [h] at hne
      cases ho : (routerRun evs).lockOwner with
      | none => rw [ho] at hne; exact absurd rfl hne
      | some t => rfl
    rw [trigger_sync, if_pos hsome]

/-- Witness for C8: after one accepted trigger and its task start, the lock
is held; a second trigger is rejected and changes nothing. -/
theorem C8_single_sync_and_immediate_reject_witness :
    (routerRun [.trigger, .start 0]).running.length ≤ 1 ∧
    trigger_sync (routerRun [.trigger, .start 0]) =
      (routerRun [.trigger, .start 0],
        ⟨false, "A sync is already running, please wait."⟩) := by
  constructor
  · exact C8_single_sync_and_immediate_reject.1 [.trigger, .start 0]
  · exact C8_single_sync_and_immediate_reject.2.2 [.trigger, .start 0]
      (by decide)

end DF
